import Mathlib

/-!
Verification of the multi-leg portfolio Kelly optimizer (`src/portfolio.rs`).

The Rust source works on `f64`.  This development uses the standard
exact-real idealization: every `f64` value is modelled as a real number,
arithmetic is exact, and the two non-finite values the source actually
produces are modelled explicitly:

* the objective value `f64::NEG_INFINITY` (returned by
  `objective_and_gradient` when some state's wealth multiplier is `≤ 0`)
  is modelled by `Option ℝ` with `none` standing for a non-finite
  objective, and

* the `+infinity` seed of the worst-case fold is modelled by pattern
  matching on the (possibly empty) list of filtered wealth values.

Branches of the source that test `f64::is_finite()` on plain arithmetic
results (for example in `single_leg_kelly_fraction`) are vacuous in the
real model and are noted where they occur.  Comparisons on reals are
classically decidable, so the development lives in a
`noncomputable section`.
-/

noncomputable section

namespace PortfolioKelly

/-- Source constant `MAX_TOTAL_ALLOCATION = 0.999_999`. -/
def MAX_TOTAL_ALLOCATION : ℝ := 0.999999

/-- Source constant `MAX_ITERATIONS = 800`. -/
def MAX_ITERATIONS : ℕ := 800

/-- Source constant `IMPROVEMENT_EPS = 1e-12`. -/
def IMPROVEMENT_EPS : ℝ := 1e-12

/-- Source constant `CONVERGENCE_OBJECTIVE_DELTA = 1e-10`. -/
def CONVERGENCE_OBJECTIVE_DELTA : ℝ := 1e-10

/-- Source constant `STATE_PROB_EPS = 1e-15`. -/
def STATE_PROB_EPS : ℝ := 1e-15

/-- `PortfolioLeg` from `types.rs`; the display-only fields `source` and
`summary` play no role in the numerics and are omitted. -/
structure PortfolioLeg where
  win_prob : ℝ
  win_return : ℝ
  loss_return : ℝ

instance : Inhabited PortfolioLeg := ⟨⟨0, 0, 0⟩⟩

/-- `PortfolioScenario` from `portfolio_input.rs` / `types.rs`: a joint
probability together with one return per leg. -/
structure PortfolioScenario where
  probability : ℝ
  returns : List ℝ

/-- Internal `OutcomeState` of `portfolio.rs`. -/
structure OutcomeState where
  prob : ℝ
  returns : List ℝ

/-- `PortfolioKellyResult` from `types.rs`.  `expected_log_growth` is an
`f64` that the source sets to the (possibly `-infinity`) objective value,
hence `Option ℝ` here with `none` = non-finite. -/
structure PortfolioKellyResult where
  allocations : List ℝ
  total_allocation : ℝ
  expected_log_growth : Option ℝ
  expected_arithmetic_return : ℝ
  worst_case_multiplier : ℝ
  converged : Bool
  iterations : ℕ

/-- `allocations.iter().zip(state.returns.iter()).map(|(f, r)| f * r).sum()`
(the Rust `zip` truncates to the shorter list, exactly like `List.zip`). -/
def dot (f r : List ℝ) : ℝ := ((f.zip r).map fun p => p.1 * p.2).sum

/-- `state_wealth` from `portfolio.rs`: `1.0 + dot(allocations, returns)`. -/
def state_wealth (allocations returns : List ℝ) : ℝ :=
  1 + dot allocations returns

/-- One pass of `gradient[i] += state.prob * ret / wealth` over the return
vector of a single state.  If the return vector is shorter than the
gradient the remaining gradient entries are untouched (as in the source);
a longer return vector would make the source panic on `gradient[i]`, the
model simply stops. -/
def accumGrad (prob wealth : ℝ) : List ℝ → List ℝ → List ℝ
  | g :: gs, r :: rs => (g + prob * r / wealth) :: accumGrad prob wealth gs rs
  | gs, [] => gs
  | [], _ :: _ => []

/-- The state-by-state loop of `objective_and_gradient`: fold over the
states carrying the objective and gradient accumulators; a state with
wealth `≤ 0` aborts with `NEG_INFINITY` (modelled `none`) and the
gradient accumulated so far. -/
def objGradAux (f : List ℝ) : List OutcomeState → ℝ → List ℝ → Option ℝ × List ℝ
  | [], obj, grad => (some obj, grad)
  | s :: rest, obj, grad =>
    if state_wealth f s.returns ≤ 0 then (none, grad)
    else
      objGradAux f rest (obj + s.prob * Real.log (state_wealth f s.returns))
        (accumGrad s.prob (state_wealth f s.returns) grad s.returns)

/-- `objective_and_gradient` from `portfolio.rs`. -/
def objective_and_gradient (allocations : List ℝ) (states : List OutcomeState) :
    Option ℝ × List ℝ :=
  objGradAux allocations states 0 (List.replicate allocations.length 0)

/-- `expected_arithmetic_return` from `portfolio.rs`. -/
def expected_arithmetic_return (allocations : List ℝ) (states : List OutcomeState) : ℝ :=
  (states.map fun s => s.prob * dot allocations s.returns).sum

/-- Descending insertion used to model
`sorted.sort_by(|a, b| b.partial_cmp(a) ...)` (no NaN in the real model,
so the comparator is the total order reversed). -/
def insertDesc (a : ℝ) : List ℝ → List ℝ
  | [] => [a]
  | b :: l => if b ≤ a then a :: b :: l else b :: insertDesc a l

/-- Descending sort of a list of reals. -/
def sortDesc : List ℝ → List ℝ
  | [] => []
  | a :: l => insertDesc a (sortDesc l)

/-- The breakpoint search of `project_to_simplex`: walk the descending
sorted list keeping the running prefix sum `c` and the index `i`; at each
element compute `t = (c + x - cap) / (i + 1)` and stop when the next
element is `≤ t` (the out-of-range `next` is `NEG_INFINITY`, which always
stops).  If the list is empty the source's loop never runs and `theta`
keeps its initial value `0`. -/
def thetaLoop (cap : ℝ) : ℝ → ℕ → List ℝ → ℝ
  | _, _, [] => 0
  | c, i, x :: rest =>
    match rest with
    | [] => (c + x - cap) / (i + 1)
    | y :: _ =>
      if y ≤ (c + x - cap) / (i + 1) then (c + x - cap) / (i + 1)
      else thetaLoop cap (c + x) (i + 1) rest

/-- `project_to_simplex` from `portfolio.rs`. -/
def project_to_simplex (values : List ℝ) (cap : ℝ) : List ℝ :=
  let non_negative := values.map fun v => max v 0
  if non_negative.sum ≤ cap then non_negative
  else
    let theta := thetaLoop cap 0 0 (sortDesc non_negative)
    non_negative.map fun v => max (v - theta) 0

/-- `single_leg_kelly_fraction` from `portfolio.rs`.  The source's first
guard returns `0` when `u`, `d` or `p` is non-finite; in the real model
every value is finite so that branch is vacuous and omitted. -/
def single_leg_kelly_fraction (leg : PortfolioLeg) : ℝ :=
  let u := leg.win_return
  let d := leg.loss_return
  let p := leg.win_prob
  let q := 1 - p
  if |u - d| < 1e-12 then (if 0 < u then MAX_TOTAL_ALLOCATION else 0)
  else if |u| < 1e-12 ∨ |d| < 1e-12 then 0
  else if -(p * u + q * d) / (u * d) ≤ 0 then 0
  else -(p * u + q * d) / (u * d)

/-- `initial_allocations_independent` from `portfolio.rs`. -/
def initial_allocations_independent (legs : List PortfolioLeg) : List ℝ :=
  project_to_simplex (legs.map single_leg_kelly_fraction) MAX_TOTAL_ALLOCATION

/-- One pass of `edges[i] += state.prob * ret` over a state's return
vector (same truncation discipline as `accumGrad`). -/
def accumEdges (prob : ℝ) : List ℝ → List ℝ → List ℝ
  | e :: es, r :: rs => (e + prob * r) :: accumEdges prob es rs
  | es, [] => es
  | [], _ :: _ => []

/-- `initial_allocations_correlated` from `portfolio.rs`. -/
def initial_allocations_correlated (leg_count : ℕ) (states : List OutcomeState) : List ℝ :=
  let edges := states.foldl (fun acc s => accumEdges s.prob acc s.returns)
    (List.replicate leg_count 0)
  project_to_simplex (edges.map fun e => max e 0) MAX_TOTAL_ALLOCATION

/-- The state built by `enumerate_independent_states` for one bitmask:
bit `i` set selects the win outcome of leg `i`, clear selects the loss
outcome; the probability is the product over the legs. -/
def stateFor (legs : List PortfolioLeg) (mask : ℕ) : OutcomeState where
  prob := ((List.range legs.length).map fun i =>
    if mask.testBit i then (legs.getD i default).win_prob
    else 1 - (legs.getD i default).win_prob).prod
  returns := (List.range legs.length).map fun i =>
    if mask.testBit i then (legs.getD i default).win_return
    else (legs.getD i default).loss_return

/-- `enumerate_independent_states` from `portfolio.rs`: one state per
bitmask `0 .. 2^n - 1`. -/
def enumerate_independent_states (legs : List PortfolioLeg) : List OutcomeState :=
  (List.range (2 ^ legs.length)).map (stateFor legs)

/-- `states_from_scenarios` from `portfolio.rs`.  The source asserts that
every probability is finite and non-negative and every return vector has
length `leg_count` with finite entries; those assertions become
hypotheses of the theorems that need them. -/
def states_from_scenarios (leg_count : ℕ) (scenarios : List PortfolioScenario) :
    List OutcomeState :=
  let _ := leg_count
  scenarios.map fun sc => { prob := sc.probability, returns := sc.returns }

/-- The worst-case fold of `solve_with_states`: minimum of the wealth
multipliers over the states with probability above `STATE_PROB_EPS`; the
source folds `f64::min` from `+infinity` and replaces a non-finite result
(possible only for the empty fold) by `0`. -/
def worst_case_of (allocations : List ℝ) (states : List OutcomeState) : ℝ :=
  match (states.filter fun s => STATE_PROB_EPS < s.prob).map
      (fun s => state_wealth allocations s.returns) with
  | [] => 0
  | w :: ws => ws.foldl min w

/-- The inner backtracking loop of `solve_with_states` (at most 24
attempts): build the candidate `f + local_step * gradient`, project it,
and accept when the projected objective beats the current one by more
than `IMPROVEMENT_EPS`; otherwise halve the step, giving up once it
drops below `1e-10`.  Returns the accepted allocation, the improvement
and the updated global step, or `none` if no step was accepted. -/
def lineSearch (states : List OutcomeState) (alloc grad : List ℝ) (objective : ℝ) :
    ℝ → ℕ → Option (List ℝ × ℝ × ℝ)
  | _, 0 => none
  | ls, k + 1 =>
    let projected := project_to_simplex
      (List.zipWith (fun f g => f + ls * g) alloc grad) MAX_TOTAL_ALLOCATION
    match (objective_and_gradient projected states).1 with
    | some nextObj =>
      if objective + IMPROVEMENT_EPS < nextObj then
        some (projected, nextObj - objective, min (ls * 1.15) 1)
      else if ls * 0.5 < 1e-10 then none
      else lineSearch states alloc grad objective (ls * 0.5) k
    | none =>
      if ls * 0.5 < 1e-10 then none
      else lineSearch states alloc grad objective (ls * 0.5) k

/-- Why the optimizer's outer loop stopped. -/
inductive StopCause where
  | fuelExhausted
  | nonFinite
  | noStep
  | smallStep
deriving DecidableEq, Repr

/-- The outer iteration loop of `solve_with_states`, fuelled by the
remaining iteration budget, returning `(allocations, iterations,
converged)` together with the reason the loop stopped. -/
def solveLoopC (states : List OutcomeState) :
    ℕ → List ℝ → ℝ → ℕ → (List ℝ × ℕ × Bool) × StopCause
  | 0, alloc, _, iters => ((alloc, iters, false), .fuelExhausted)
  | n + 1, alloc, step, iters =>
    match objective_and_gradient alloc states with
    | (none, _) => ((alloc, iters + 1, false), .nonFinite)
    | (some obj, grad) =>
      match lineSearch states alloc grad obj step 24 with
      | none => ((alloc, iters + 1, true), .noStep)
      | some (alloc', impr, step') =>
        if impr < CONVERGENCE_OBJECTIVE_DELTA then ((alloc', iters + 1, true), .smallStep)
        else solveLoopC states n alloc' step' (iters + 1)

/-- The outer iteration loop of `solve_with_states` without the
instrumentation. -/
def solveLoop (states : List OutcomeState) (n : ℕ) (alloc : List ℝ) (step : ℝ)
    (iters : ℕ) : List ℝ × ℕ × Bool :=
  (solveLoopC states n alloc step iters).1

/-- `solve_with_states` from `portfolio.rs`. -/
def solve_with_states (leg_count : ℕ) (states : List OutcomeState)
    (allocations : List ℝ) : PortfolioKellyResult :=
  if leg_count = 0 ∨ states.isEmpty then
    { allocations := List.replicate leg_count 0
      total_allocation := 0
      expected_log_growth := some 0
      expected_arithmetic_return := 0
      worst_case_multiplier := 1
      converged := true
      iterations := 0 }
  else
    let r := solveLoop states MAX_ITERATIONS allocations 0.25 0
    { allocations := r.1
      total_allocation := r.1.sum
      expected_log_growth := (objective_and_gradient r.1 states).1
      expected_arithmetic_return := expected_arithmetic_return r.1 states
      worst_case_multiplier := worst_case_of r.1 states
      converged := r.2.2
      iterations := r.2.1 }

/-- `calculate_portfolio_kelly` from `portfolio.rs`. -/
def calculate_portfolio_kelly (legs : List PortfolioLeg) : PortfolioKellyResult :=
  solve_with_states legs.length (enumerate_independent_states legs)
    (initial_allocations_independent legs)

/-- `calculate_portfolio_kelly_correlated` from `portfolio.rs`. -/
def calculate_portfolio_kelly_correlated (leg_count : ℕ)
    (scenarios : List PortfolioScenario) : PortfolioKellyResult :=
  solve_with_states leg_count (states_from_scenarios leg_count scenarios)
    (initial_allocations_correlated leg_count (states_from_scenarios leg_count scenarios))

/-- The allocation invariant maintained by the optimizer: componentwise
non-negative with sum at most the global cap. -/
def GoodAlloc (l : List ℝ) : Prop :=
  (∀ a ∈ l, 0 ≤ a) ∧ l.sum ≤ MAX_TOTAL_ALLOCATION

/-- Transposition of two indices. -/
def swapIdx (i j k : ℕ) : ℕ :=
  if k = i then j else if k = j then i else k

/-- An allocation (or gradient) vector of length `n` whose components
`i` and `j` agree. -/
def SymAlloc (n i j : ℕ) (v : List ℝ) : Prop :=
  v.length = n ∧ v.getD i 0 = v.getD j 0

/-- Swap bits `i` and `j` of a bitmask. -/
def swapBits (i j m : ℕ) : ℕ :=
  if m.testBit i = m.testBit j then m else m ^^^ (2 ^ i ^^^ 2 ^ j)

/-- Spec-side value of the objective on a feasible allocation:
`Σ_s probability_s · ln(w_s)`. -/
def objectiveSpec (f : List ℝ) (states : List OutcomeState) : ℝ :=
  (states.map fun s => s.prob * Real.log (state_wealth f s.returns)).sum

/-- Spec-side value of gradient component `k`:
`Σ_s probability_s · returns_s[k] / w_s`. -/
def gradTermSpec (f : List ℝ) (states : List OutcomeState) (k : ℕ) : ℝ :=
  (states.map fun s => s.prob * s.returns.getD k 0 / state_wealth f s.returns).sum

/-- Modelled from the spec (claim C7's wording): the per-leg initial
fraction with the degenerate cases read as *exact* equalities
`u == d`, `u == 0`, `d == 0`, as the claim states them. -/
def single_leg_kelly_claimed (leg : PortfolioLeg) : ℝ :=
  let u := leg.win_return
  let d := leg.loss_return
  let p := leg.win_prob
  if u = d then (if 0 < u then MAX_TOTAL_ALLOCATION else 0)
  else if u = 0 ∨ d = 0 then 0
  else if -(p * u + (1 - p) * d) / (u * d) ≤ 0 then 0
  else -(p * u + (1 - p) * d) / (u * d)

/-- Amended spec-side per-leg fraction: the degenerate cases are the
source's *tolerance* comparisons (`|u - d| < 1e-12`, `|u| < 1e-12`,
`|d| < 1e-12`); non-positive formula results are replaced by `0`
(non-finite results cannot arise in the real model because `u·d ≠ 0`
in the final branch). -/
def kellySpecAmended (leg : PortfolioLeg) : ℝ :=
  let u := leg.win_return
  let d := leg.loss_return
  let p := leg.win_prob
  if |u - d| < 1e-12 then (if 0 < u then MAX_TOTAL_ALLOCATION else 0)
  else if |u| < 1e-12 ∨ |d| < 1e-12 then 0
  else max (-(p * u + (1 - p) * d) / (u * d)) 0

/-! ## Sorting lemmas -/

lemma insertDesc_perm (a : ℝ) :
    ∀ l : List ℝ, List.Perm (insertDesc a l) (a :: l)
  | [] => List.Perm.refl _
  | b :: l => by
    rw [insertDesc]
    split
    · exact List.Perm.refl _
    · exact ((insertDesc_perm a l).cons b).trans (List.Perm.swap a b l)

lemma sortDesc_perm : ∀ l : List ℝ, List.Perm (sortDesc l) l
  | [] => List.Perm.refl _
  | a :: l => by
    rw [sortDesc]
    exact (insertDesc_perm a (sortDesc l)).trans ((sortDesc_perm l).cons a)

lemma insertDesc_pairwise (a : ℝ) :
    ∀ l : List ℝ, l.Pairwise (fun x y => y ≤ x) →
      (insertDesc a l).Pairwise (fun x y => y ≤ x)
  | [], _ => by simp [insertDesc]
  | b :: l, h => by
    rw [insertDesc]
    rcases List.pairwise_cons.1 h with ⟨hb, hl⟩
    split
    · rename_i hba
      refine List.pairwise_cons.2 ⟨?_, h⟩
      intro y hy
      rcases List.mem_cons.1 hy with rfl | hy
      · exact hba
      · exact le_trans (hb _ hy) hba
    · rename_i hba
      push_neg at hba
      refine List.pairwise_cons.2 ⟨?_, insertDesc_pairwise a l hl⟩
      intro y hy
      rcases List.mem_cons.1 ((insertDesc_perm a l).mem_iff.1 hy) with rfl | hy
      · exact le_of_lt hba
      · exact hb _ hy

lemma sortDesc_pairwise : ∀ l : List ℝ, (sortDesc l).Pairwise (fun x y => y ≤ x)
  | [] => by simp [sortDesc]
  | a :: l => by
    rw [sortDesc]
    exact insertDesc_pairwise a _ (sortDesc_pairwise l)

/-! ## Breakpoint correctness for the simplex projection -/

lemma thetaLoop_single (cap c x : ℝ) (i : ℕ) :
    thetaLoop cap c i [x] = (c + x - cap) / ((i : ℝ) + 1) := rfl

lemma thetaLoop_cons2 (cap c x y : ℝ) (t : List ℝ) (i : ℕ) :
    thetaLoop cap c i (x :: y :: t) =
      if y ≤ (c + x - cap) / ((i : ℝ) + 1) then (c + x - cap) / ((i : ℝ) + 1)
      else thetaLoop cap (c + x) (i + 1) (y :: t) := rfl

lemma thetaLoop_spec (cap : ℝ) :
    ∀ (t : List ℝ) (x c : ℝ) (i : ℕ),
      (x :: t).Pairwise (fun a b => b ≤ a) →
      c - cap ≤ i * x →
      thetaLoop cap c i (x :: t) ≤ x ∧
      c - i * thetaLoop cap c i (x :: t) +
        ((x :: t).map fun v => max (v - thetaLoop cap c i (x :: t)) 0).sum = cap := by
  intro t
  induction t with
  | nil =>
    intro x c i _ hinv
    have hip : (0 : ℝ) < (i : ℝ) + 1 := by positivity
    rw [thetaLoop_single]
    set θ := (c + x - cap) / ((i : ℝ) + 1) with hθ
    have hθx : θ ≤ x := by
      rw [hθ, div_le_iff₀ hip]
      nlinarith
    have hmul : ((i : ℝ) + 1) * θ = c + x - cap := by
      rw [hθ, mul_div_cancel₀ _ (ne_of_gt hip)]
    refine ⟨hθx, ?_⟩
    have hx : max (x - θ) 0 = x - θ := max_eq_left (by linarith)
    simp only [List.map_cons, List.map_nil, List.sum_cons, List.sum_nil, hx]
    nlinarith
  | cons y t' ih =>
    intro x c i hpw hinv
    have hip : (0 : ℝ) < (i : ℝ) + 1 := by positivity
    have hyx : y ≤ x := (List.pairwise_cons.1 hpw).1 y (by simp)
    have hpw' : (y :: t').Pairwise (fun a b => b ≤ a) := (List.pairwise_cons.1 hpw).2
    rw [thetaLoop_cons2]
    split
    · rename_i hbreak
      set θ := (c + x - cap) / ((i : ℝ) + 1) with hθ
      have hθx : θ ≤ x := by
        rw [hθ, div_le_iff₀ hip]
        nlinarith
      have hmul : ((i : ℝ) + 1) * θ = c + x - cap := by
        rw [hθ, mul_div_cancel₀ _ (ne_of_gt hip)]
      refine ⟨hθx, ?_⟩
      have htail : (((y :: t').map fun v => max (v - θ) 0)).sum = 0 := by
        apply List.sum_eq_zero
        intro z hz
        rcases List.mem_map.1 hz with ⟨v, hv, rfl⟩
        have hvy : v ≤ y := by
          rcases List.mem_cons.1 hv with rfl | hv
          · exact le_refl _
          · exact (List.pairwise_cons.1 hpw').1 v hv
        exact max_eq_right (by linarith)
      have hx : max (x - θ) 0 = x - θ := max_eq_left (by linarith)
      have hsum : ((x :: y :: t').map fun v => max (v - θ) 0).sum = x - θ := by
        rw [List.map_cons, List.sum_cons, hx, htail, add_zero]
      rw [hsum]
      nlinarith
    · rename_i hbreak
      push_neg at hbreak
      have hmul : c + x - cap < y * ((i : ℝ) + 1) := (div_lt_iff₀ hip).1 hbreak
      obtain ⟨h1, h2⟩ := ih y (c + x) (i + 1) hpw' (by push_cast; nlinarith)
      set θ := thetaLoop cap (c + x) (i + 1) (y :: t') with hθ
      refine ⟨le_trans h1 hyx, ?_⟩
      have hx : max (x - θ) 0 = x - θ := max_eq_left (by linarith)
      push_cast at h2
      have hsum : ((x :: y :: t').map fun v => max (v - θ) 0).sum =
          (x - θ) + ((y :: t').map fun v => max (v - θ) 0).sum := by
        rw [List.map_cons, List.sum_cons, hx]
      rw [hsum]
      linarith

/-! ## Projection lemmas -/

lemma project_to_simplex_nonneg (values : List ℝ) (cap : ℝ) :
    ∀ a ∈ project_to_simplex values cap, 0 ≤ a := by
  intro a ha
  rw [project_to_simplex] at ha
  split at ha
  · rcases List.mem_map.1 ha with ⟨v, _, rfl⟩
    exact le_max_right _ _
  · rcases List.mem_map.1 ha with ⟨v, _, rfl⟩
    exact le_max_right _ _

lemma project_to_simplex_length (values : List ℝ) (cap : ℝ) :
    (project_to_simplex values cap).length = values.length := by
  rw [project_to_simplex]
  split <;> simp

lemma project_to_simplex_else_sum (values : List ℝ) (cap : ℝ) (hcap : 0 ≤ cap)
    (h : ¬ (values.map fun v => max v 0).sum ≤ cap) :
    (project_to_simplex values cap).sum = cap := by
  rw [project_to_simplex]
  rw [if_neg h]
  set nn := values.map fun v => max v 0 with hnn
  set θ := thetaLoop cap 0 0 (sortDesc nn) with hθ
  have hne : nn ≠ [] := by
    intro he
    rw [he] at h
    simp at h
    linarith
  have hsne : sortDesc nn ≠ [] := by
    intro he
    have := (sortDesc_perm nn).length_eq
    rw [he] at this
    exact hne (List.length_eq_zero.1 this.symm)
  obtain ⟨x, t, hxt⟩ := List.exists_cons_of_ne_nil hsne
  have hpw := sortDesc_pairwise nn
  rw [hxt] at hpw
  have hspec := thetaLoop_spec cap t x 0 0 hpw (by simp [hcap])
  rw [← hxt] at hspec
  have hsum : ((sortDesc nn).map fun v => max (v - θ) 0).sum =
      (nn.map fun v => max (v - θ) 0).sum :=
    ((sortDesc_perm nn).map _).sum_eq
  have h2 := hspec.2
  rw [hsum] at h2
  simpa using h2

lemma project_to_simplex_sum_le (values : List ℝ) (cap : ℝ) (hcap : 0 ≤ cap) :
    (project_to_simplex values cap).sum ≤ cap := by
  by_cases h : (values.map fun v => max v 0).sum ≤ cap
  · rw [project_to_simplex, if_pos h]
    exact h
  · exact le_of_eq (project_to_simplex_else_sum values cap hcap h)

lemma project_to_simplex_pointwise (values : List ℝ) (cap : ℝ) :
    ∃ g : ℝ → ℝ, project_to_simplex values cap = values.map g := by
  rw [project_to_simplex]
  split
  · exact ⟨fun v => max v 0, rfl⟩
  · exact ⟨fun v => max (max v 0 - thetaLoop cap 0 0
      (sortDesc (values.map fun v => max v 0))) 0, by rw [List.map_map]; rfl⟩

lemma goodAlloc_project (values : List ℝ) :
    GoodAlloc (project_to_simplex values MAX_TOTAL_ALLOCATION) :=
  ⟨project_to_simplex_nonneg values _,
    project_to_simplex_sum_le values _ (by norm_num [MAX_TOTAL_ALLOCATION])⟩

lemma goodAlloc_replicate (n : ℕ) : GoodAlloc (List.replicate n (0 : ℝ)) := by
  constructor
  · intro a ha
    rw [List.eq_of_mem_replicate ha]
  · simp [MAX_TOTAL_ALLOCATION]
    norm_num

/-! ## Optimizer loop invariants -/

lemma lineSearch_good (states : List OutcomeState) (alloc grad : List ℝ) (obj : ℝ) :
    ∀ (k : ℕ) (ls : ℝ) (r : List ℝ × ℝ × ℝ),
      lineSearch states alloc grad obj ls k = some r → GoodAlloc r.1 := by
  intro k
  induction k with
  | zero =>
    intro ls r h
    simp [lineSearch] at h
  | succ k ih =>
    intro ls r h
    rw [lineSearch] at h
    split at h
    · split at h
      · rcases Option.some.inj h with rfl
        exact goodAlloc_project _
      · split at h
        · exact absurd h (by simp)
        · exact ih _ _ h
    · split at h
      · exact absurd h (by simp)
      · exact ih _ _ h

lemma solveLoopC_good (states : List OutcomeState) :
    ∀ (n : ℕ) (alloc : List ℝ) (step : ℝ) (iters : ℕ),
      GoodAlloc alloc → GoodAlloc ((solveLoopC states n alloc step iters).1).1 := by
  intro n
  induction n with
  | zero =>
    intro alloc step iters h
    simpa [solveLoopC] using h
  | succ n ih =>
    intro alloc step iters h
    rw [solveLoopC]
    split
    · exact h
    · rename_i obj grad heq1
      split
      · exact h
      · rename_i a' impr s' heq2
        split
        · exact lineSearch_good states alloc grad obj 24 step (a', impr, s') heq2
        · exact ih _ _ _ (lineSearch_good states alloc grad obj 24 step (a', impr, s') heq2)

lemma solve_with_states_good (leg_count : ℕ) (states : List OutcomeState)
    (alloc : List ℝ) (h : GoodAlloc alloc) :
    (∀ a ∈ (solve_with_states leg_count states alloc).allocations, 0 ≤ a) ∧
    0 ≤ (solve_with_states leg_count states alloc).total_allocation ∧
    (solve_with_states leg_count states alloc).total_allocation ≤ MAX_TOTAL_ALLOCATION := by
  rw [solve_with_states]
  split
  · refine ⟨?_, le_refl 0, by norm_num [MAX_TOTAL_ALLOCATION]⟩
    intro a ha
    rw [List.eq_of_mem_replicate ha]
  · have hg : GoodAlloc ((solveLoopC states MAX_ITERATIONS alloc 0.25 0).1).1 :=
      solveLoopC_good states MAX_ITERATIONS alloc 0.25 0 h
    refine ⟨hg.1, List.sum_nonneg hg.1, hg.2⟩

/-! ## Claim C1 -/

/-- Claim C1: for every input to either entry point
(`calculate_portfolio_kelly` / `calculate_portfolio_kelly_correlated`)
the returned allocations vector is componentwise non-negative and its
sum, reported as `total_allocation`, lies in `[0, 0.999999]`.  Proved
for *all* inputs, which subsumes the claim's valid inputs (in the real
model every value is finite). -/
theorem C1_total_allocation_in_simplex :
    (∀ legs : List PortfolioLeg,
      (∀ a ∈ (calculate_portfolio_kelly legs).allocations, 0 ≤ a) ∧
      (calculate_portfolio_kelly legs).total_allocation =
        (calculate_portfolio_kelly legs).allocations.sum ∧
      0 ≤ (calculate_portfolio_kelly legs).total_allocation ∧
      (calculate_portfolio_kelly legs).total_allocation ≤ 0.999999) ∧
    (∀ (leg_count : ℕ) (scenarios : List PortfolioScenario),
      (∀ a ∈ (calculate_portfolio_kelly_correlated leg_count scenarios).allocations, 0 ≤ a) ∧
      (calculate_portfolio_kelly_correlated leg_count scenarios).total_allocation =
        (calculate_portfolio_kelly_correlated leg_count scenarios).allocations.sum ∧
      0 ≤ (calculate_portfolio_kelly_correlated leg_count scenarios).total_allocation ∧
      (calculate_portfolio_kelly_correlated leg_count scenarios).total_allocation ≤ 0.999999) := by
  have hts : ∀ (leg_count : ℕ) (states : List OutcomeState) (alloc : List ℝ),
      (solve_with_states leg_count states alloc).total_allocation =
        (solve_with_states leg_count states alloc).allocations.sum := by
    intro leg_count states alloc
    rw [solve_with_states]
    split
    · simp
    · rfl
  constructor
  · intro legs
    have h := solve_with_states_good legs.length (enumerate_independent_states legs)
      (initial_allocations_independent legs) (goodAlloc_project _)
    exact ⟨h.1, hts _ _ _, h.2.1,
      le_trans h.2.2 (by norm_num [MAX_TOTAL_ALLOCATION])⟩
  · intro leg_count scenarios
    have h := solve_with_states_good leg_count
      (states_from_scenarios leg_count scenarios)
      (initial_allocations_correlated leg_count (states_from_scenarios leg_count scenarios))
      (goodAlloc_project _)
    exact ⟨h.1, hts _ _ _, h.2.1,
      le_trans h.2.2 (by norm_num [MAX_TOTAL_ALLOCATION])⟩

/-! ## Objective and gradient closed forms -/

lemma accumGrad_length (p w : ℝ) :
    ∀ (g r : List ℝ), (accumGrad p w g r).length = g.length
  | [], [] => rfl
  | [], _ :: _ => rfl
  | _ :: _, [] => rfl
  | g0 :: gs, r0 :: rs => by
    rw [accumGrad]
    simp [accumGrad_length p w gs rs]

lemma accumGrad_getD (p w : ℝ) :
    ∀ (g r : List ℝ) (k : ℕ), k < g.length →
      (accumGrad p w g r).getD k 0 = g.getD k 0 + p * r.getD k 0 / w := by
  intro g
  induction g with
  | nil => intro r k hk; simp at hk
  | cons g0 gs ih =>
    intro r k hk
    cases r with
    | nil => simp [accumGrad]
    | cons r0 rs =>
      rw [accumGrad]
      cases k with
      | zero => simp
      | succ k =>
        simp only [List.getD_cons_succ]
        exact ih rs k (by simpa using hk)

lemma objGradAux_length (f : List ℝ) :
    ∀ (states : List OutcomeState) (o : ℝ) (g : List ℝ),
      ((objGradAux f states o g).2).length = g.length := by
  intro states
  induction states with
  | nil => intro o g; rfl
  | cons s rest ih =>
    intro o g
    rw [objGradAux]
    split
    · rfl
    · rw [ih]
      exact accumGrad_length _ _ g s.returns

lemma objGradAux_none (f : List ℝ) :
    ∀ (states : List OutcomeState) (o : ℝ) (g : List ℝ),
      (∃ s ∈ states, state_wealth f s.returns ≤ 0) →
      (objGradAux f states o g).1 = none := by
  intro states
  induction states with
  | nil => intro o g h; simp at h
  | cons s rest ih =>
    intro o g h
    rw [objGradAux]
    split
    · rfl
    · rename_i hw
      rcases h with ⟨s', hs', hw'⟩
      rcases List.mem_cons.1 hs' with rfl | hs'
      · exact absurd hw' hw
      · exact ih _ _ ⟨s', hs', hw'⟩

lemma objGradAux_pos_fst (f : List ℝ) :
    ∀ (states : List OutcomeState) (o : ℝ) (g : List ℝ),
      (∀ s ∈ states, 0 < state_wealth f s.returns) →
      (objGradAux f states o g).1 = some (o + objectiveSpec f states) := by
  intro states
  induction states with
  | nil => intro o g _; simp [objGradAux, objectiveSpec]
  | cons s rest ih =>
    intro o g h
    rw [objGradAux]
    rw [if_neg (not_le.2 (h s (by simp)))]
    rw [ih _ _ fun s' hs' => h s' (List.mem_cons_of_mem s hs')]
    simp only [objectiveSpec, List.map_cons, List.sum_cons]
    rw [add_assoc]

lemma objGradAux_pos_snd (f : List ℝ) :
    ∀ (states : List OutcomeState) (o : ℝ) (g : List ℝ) (k : ℕ), k < g.length →
      (∀ s ∈ states, 0 < state_wealth f s.returns) →
      ((objGradAux f states o g).2).getD k 0 = g.getD k 0 + gradTermSpec f states k := by
  intro states
  induction states with
  | nil => intro o g k _ _; simp [objGradAux, gradTermSpec]
  | cons s rest ih =>
    intro o g k hk h
    rw [objGradAux]
    rw [if_neg (not_le.2 (h s (by simp)))]
    rw [ih _ _ k (by rw [accumGrad_length]; exact hk)
      fun s' hs' => h s' (List.mem_cons_of_mem s hs')]
    rw [accumGrad_getD _ _ g s.returns k hk]
    simp only [gradTermSpec, List.map_cons, List.sum_cons]
    ring

/-! ## Claim C2 -/

/-- Claim C2 (counterexample to the claim as stated): at the allocation
`[1/2]` with states `[(prob 1, returns [0]), (prob 0, returns [-3])]`,
every state with *positive* probability has wealth multiplier `> 0`
(the only such state has wealth `1`), yet the evaluator returns
`-infinity` (`none`) — not the sum `Σ_s prob_s · ln(w_s)` the claim
promises for that case — because the zero-probability state has wealth
`-1/2 ≤ 0` and the code's early return does not look at probabilities. -/
theorem C2_counterexample :
    (objective_and_gradient [(1 : ℝ)/2]
      [⟨1, [0]⟩, ⟨0, [-3]⟩]).1 = none ∧
    (0 : ℝ) < state_wealth [(1 : ℝ)/2] [0] ∧
    (objective_and_gradient [(1 : ℝ)/2] [⟨1, [0]⟩, ⟨0, [-3]⟩]).1 ≠
      some ((1 : ℝ) * Real.log (state_wealth [(1 : ℝ)/2] [0]) +
        0 * Real.log (state_wealth [(1 : ℝ)/2] [-3])) := by
  have h1 : (objective_and_gradient [(1 : ℝ)/2] [⟨1, [0]⟩, ⟨0, [-3]⟩]).1 = none := by
    rw [objective_and_gradient, objGradAux]
    rw [if_neg (by norm_num [state_wealth, dot])]
    rw [objGradAux]
    rw [if_pos (by norm_num [state_wealth, dot])]
  refine ⟨h1, by norm_num [state_wealth, dot], ?_⟩
  rw [h1]
  simp

/-- Claim C2 (amended): the evaluator returns `-infinity` (`none`) as
objective whenever *some state — regardless of probability —* has wealth
multiplier `w ≤ 0`; otherwise (every state has `w > 0`) it returns
objective `Σ_s prob_s · ln(w_s)` and gradient component
`k = Σ_s prob_s · returns_s[k] / w_s` (for the components `k` of the
gradient vector, which has the allocation's length). -/
theorem C2_objective_and_gradient_amended (f : List ℝ) (states : List OutcomeState) :
    ((∃ s ∈ states, state_wealth f s.returns ≤ 0) →
      (objective_and_gradient f states).1 = none) ∧
    ((∀ s ∈ states, 0 < state_wealth f s.returns) →
      (objective_and_gradient f states).1 = some (objectiveSpec f states) ∧
      ∀ k, k < f.length →
        ((objective_and_gradient f states).2).getD k 0 = gradTermSpec f states k) := by
  constructor
  · intro h
    exact objGradAux_none f states 0 _ h
  · intro h
    constructor
    · rw [objective_and_gradient, objGradAux_pos_fst f states 0 _ h, zero_add]
    · intro k hk
      rw [objective_and_gradient,
        objGradAux_pos_snd f states 0 _ k (by simpa using hk) h]
      simp

/-- Witness for C2: at `f = [1/2]`, one state `(prob 1, returns [1])`,
the state's wealth is positive, and the theorem yields the objective
`some (1 · ln(3/2))` and gradient component `0` equal to
`1 · 1 / (3/2)`. -/
theorem C2_witness :
    (0 : ℝ) < state_wealth [(1 : ℝ)/2] [1] ∧
    (objective_and_gradient [(1 : ℝ)/2] [⟨1, [1]⟩]).1 =
      some (objectiveSpec [(1 : ℝ)/2] [⟨1, [1]⟩]) ∧
    ((objective_and_gradient [(1 : ℝ)/2] [⟨1, [1]⟩]).2).getD 0 0 =
      gradTermSpec [(1 : ℝ)/2] [⟨1, [1]⟩] 0 := by
  have hpos : ∀ s ∈ [(⟨1, [1]⟩ : OutcomeState)], 0 < state_wealth [(1 : ℝ)/2] s.returns := by
    intro s hs
    rcases List.mem_cons.1 hs with rfl | hs
    · norm_num [state_wealth, dot]
    · simp at hs
  have h := (C2_objective_and_gradient_amended [(1 : ℝ)/2] [⟨1, [1]⟩]).2 hpos
  exact ⟨by norm_num [state_wealth, dot], h.1, h.2 0 (by norm_num)⟩

/-! ## Claim C9 -/

/-- Claim C9: when the leg count is `0` or the state list is empty, the
optimizer returns an all-zero allocation vector of length `leg_count`,
`total_allocation = 0`, `expected_log_growth = 0`,
`expected_arithmetic_return = 0`, `worst_case_multiplier = 1`,
`converged = true` and `iterations = 0`. -/
theorem C9_empty_input (leg_count : ℕ) (states : List OutcomeState)
    (alloc : List ℝ) (h : leg_count = 0 ∨ states = []) :
    solve_with_states leg_count states alloc =
      { allocations := List.replicate leg_count 0
        total_allocation := 0
        expected_log_growth := some 0
        expected_arithmetic_return := 0
        worst_case_multiplier := 1
        converged := true
        iterations := 0 } := by
  rw [solve_with_states, if_pos]
  rcases h with h | h
  · exact Or.inl h
  · exact Or.inr (by simp [h])

/-- Witness for C9 at `leg_count = 2` with an empty state list. -/
theorem C9_witness :
    solve_with_states 2 ([] : List OutcomeState) [(1 : ℝ), 2] =
      { allocations := List.replicate 2 0
        total_allocation := 0
        expected_log_growth := some 0
        expected_arithmetic_return := 0
        worst_case_multiplier := 1
        converged := true
        iterations := 0 } :=
  C9_empty_input 2 [] [(1 : ℝ), 2] (Or.inr rfl)

/-! ## Minimum-fold lemmas and claim C5 -/

lemma foldl_min_le_init : ∀ (l : List ℝ) (b : ℝ), l.foldl min b ≤ b
  | [], _ => le_refl _
  | y :: l, b => le_trans (foldl_min_le_init l (min b y)) (min_le_left b y)

lemma foldl_min_le : ∀ (ws : List ℝ) (w x : ℝ), x ∈ w :: ws → ws.foldl min w ≤ x := by
  intro ws
  induction ws with
  | nil =>
    intro w x hx
    rcases List.mem_cons.1 hx with rfl | hx
    · exact le_refl _
    · simp at hx
  | cons y ws ih =>
    intro w x hx
    rcases List.mem_cons.1 hx with rfl | hx
    · exact le_trans (foldl_min_le_init ws (min x y)) (min_le_left x y)
    · rcases List.mem_cons.1 hx with rfl | hx
      · exact le_trans (foldl_min_le_init ws (min w x)) (min_le_right w x)
      · exact ih (min w y) x (List.mem_cons_of_mem _ hx)

lemma foldl_min_mem : ∀ (ws : List ℝ) (w : ℝ), ws.foldl min w ∈ w :: ws := by
  intro ws
  induction ws with
  | nil => intro w; simp
  | cons y ws ih =>
    intro w
    have h := ih (min w y)
    rcases List.mem_cons.1 h with h | h
    · rcases min_choice w y with hm | hm
      · rw [List.foldl_cons, h, hm]; simp
      · rw [List.foldl_cons, h, hm]; simp
    · rw [List.foldl_cons]
      exact List.mem_cons_of_mem _ (List.mem_cons_of_mem _ h)

lemma worst_case_of_empty (alloc : List ℝ) (states : List OutcomeState)
    (h : ((states.filter fun s => STATE_PROB_EPS < s.prob).map
      fun s => state_wealth alloc s.returns) = []) :
    worst_case_of alloc states = 0 := by
  rw [worst_case_of]
  split
  · rfl
  · rename_i w ws hw
    rw [h] at hw
    exact absurd hw (by simp)

lemma worst_case_of_min (alloc : List ℝ) (states : List OutcomeState)
    (h : ((states.filter fun s => STATE_PROB_EPS < s.prob).map
      fun s => state_wealth alloc s.returns) ≠ []) :
    worst_case_of alloc states ∈
      ((states.filter fun s => STATE_PROB_EPS < s.prob).map
        fun s => state_wealth alloc s.returns) ∧
    ∀ w ∈ ((states.filter fun s => STATE_PROB_EPS < s.prob).map
      fun s => state_wealth alloc s.returns), worst_case_of alloc states ≤ w := by
  rw [worst_case_of]
  split
  · rename_i hw
    exact absurd hw h
  · rename_i w ws hw
    rw [hw]
    exact ⟨foldl_min_mem ws w, fun x hx => foldl_min_le ws w x hx⟩

lemma worst_case_of_filter (alloc : List ℝ) (states : List OutcomeState) :
    worst_case_of alloc states =
      worst_case_of alloc (states.filter fun s => STATE_PROB_EPS < s.prob) := by
  rw [worst_case_of, worst_case_of, List.filter_filter]
  simp

/-- Claim C5: in every returned result on non-empty input,
`worst_case_multiplier` equals the minimum of
`1 + dot(final allocation, returns_s)` over exactly the states whose
probability exceeds `1e-15` (`STATE_PROB_EPS`), is `0` when no state
passes the threshold, and is unaffected by the sub-threshold states
(filtering them away first changes nothing).  The result is a real
number, so it is in particular never `+infinity`. -/
theorem C5_worst_case_multiplier (leg_count : ℕ) (states : List OutcomeState)
    (alloc : List ℝ) (h : ¬ (leg_count = 0 ∨ states = [])) :
    (solve_with_states leg_count states alloc).worst_case_multiplier =
      worst_case_of (solve_with_states leg_count states alloc).allocations states ∧
    (((states.filter fun s => STATE_PROB_EPS < s.prob).map fun s =>
        state_wealth (solve_with_states leg_count states alloc).allocations s.returns) = [] →
      (solve_with_states leg_count states alloc).worst_case_multiplier = 0) ∧
    (((states.filter fun s => STATE_PROB_EPS < s.prob).map fun s =>
        state_wealth (solve_with_states leg_count states alloc).allocations s.returns) ≠ [] →
      (solve_with_states leg_count states alloc).worst_case_multiplier ∈
        ((states.filter fun s => STATE_PROB_EPS < s.prob).map fun s =>
          state_wealth (solve_with_states leg_count states alloc).allocations s.returns) ∧
      ∀ w ∈ ((states.filter fun s => STATE_PROB_EPS < s.prob).map fun s =>
        state_wealth (solve_with_states leg_count states alloc).allocations s.returns),
        (solve_with_states leg_count states alloc).worst_case_multiplier ≤ w) ∧
    worst_case_of (solve_with_states leg_count states alloc).allocations states =
      worst_case_of (solve_with_states leg_count states alloc).allocations
        (states.filter fun s => STATE_PROB_EPS < s.prob) := by
  push_neg at h
  have hcond : ¬ (leg_count = 0 ∨ states.isEmpty = true) := by
    push_neg
    exact ⟨h.1, by simp [h.2]⟩
  have hfield : (solve_with_states leg_count states alloc).worst_case_multiplier =
      worst_case_of (solve_with_states leg_count states alloc).allocations states := by
    rw [solve_with_states, if_neg hcond]
  refine ⟨hfield, ?_, ?_, worst_case_of_filter _ _⟩
  · intro he
    rw [hfield]
    exact worst_case_of_empty _ _ he
  · intro hne
    rw [hfield]
    exact worst_case_of_min _ _ hne

/-- Witness for C5: a single state of probability `1`. -/
theorem C5_witness :
    ¬ ((1 : ℕ) = 0 ∨ ([(⟨1, [0]⟩ : OutcomeState)] = [])) ∧
    (solve_with_states 1 [⟨1, [0]⟩] [(0 : ℝ)]).worst_case_multiplier =
      worst_case_of (solve_with_states 1 [⟨1, [0]⟩] [(0 : ℝ)]).allocations [⟨1, [0]⟩] :=
  ⟨by simp, (C5_worst_case_multiplier 1 [⟨1, [0]⟩] [(0 : ℝ)] (by simp)).1⟩

/-! ## Claim C6 -/

/-- Claim C6 (counterexample to the claim as stated): with a *negative*
capacity `cap = -1` and input `[1]`, the clamped vector sums to `1 > cap`,
and the claim then promises a result summing exactly to `cap` (hence
`≤ cap`); the code instead returns `[0]`, whose sum `0` is neither. -/
theorem C6_counterexample :
    (project_to_simplex [(1 : ℝ)] (-1)).sum ≠ -1 ∧
    ¬ (project_to_simplex [(1 : ℝ)] (-1)).sum ≤ -1 := by
  have h : project_to_simplex [(1 : ℝ)] (-1) = [0] := by
    rw [project_to_simplex]
    rw [if_neg (by norm_num)]
    norm_num [sortDesc, insertDesc, thetaLoop_single]
  rw [h]
  norm_num

/-- Claim C6 (amended: capacity restricted to `cap ≥ 0`, which the only
call site `cap = 0.999999` satisfies): `project_to_simplex` clamps each
negative component to zero; if the clamped components sum to at most
`cap` it returns the clamped vector unchanged; otherwise it returns the
vector with components `max(max(v_i, 0) - θ, 0)` for a shift `θ` chosen
so that the result sums exactly to `cap`; in all cases the output is
componentwise non-negative with sum at most `cap`. -/
theorem C6_project_to_simplex_amended (values : List ℝ) (cap : ℝ) (hcap : 0 ≤ cap) :
    (∀ a ∈ project_to_simplex values cap, 0 ≤ a) ∧
    (project_to_simplex values cap).sum ≤ cap ∧
    ((values.map fun v => max v 0).sum ≤ cap →
      project_to_simplex values cap = values.map fun v => max v 0) ∧
    (¬ (values.map fun v => max v 0).sum ≤ cap →
      ∃ θ : ℝ, project_to_simplex values cap =
          (values.map fun v => max (max v 0 - θ) 0) ∧
        (project_to_simplex values cap).sum = cap) := by
  refine ⟨project_to_simplex_nonneg values cap,
    project_to_simplex_sum_le values cap hcap, ?_, ?_⟩
  · intro hle
    rw [project_to_simplex, if_pos hle]
  · intro hgt
    refine ⟨thetaLoop cap 0 0 (sortDesc (values.map fun v => max v 0)), ?_,
      project_to_simplex_else_sum values cap hcap hgt⟩
    rw [project_to_simplex, if_neg hgt, List.map_map]
    rfl

/-- Witness for C6 at `values = [2, -1]`, `cap = 1`. -/
theorem C6_witness :
    (0 : ℝ) ≤ 1 ∧ (project_to_simplex [(2 : ℝ), -1] 1).sum ≤ 1 :=
  ⟨by norm_num, (C6_project_to_simplex_amended [(2 : ℝ), -1] 1 (by norm_num)).2.1⟩

/-! ## Claim C7 -/

/-- Claim C7 (counterexample to the claim as stated): the claim reads the
degenerate cases as exact equalities (`u == d`, `u == 0`, `d == 0`), but
the source compares with tolerance `1e-12`.  At
`p = 1/2, u = 1/2 + 1e-13, d = 1/2` the claim's piecewise formula gives
`0` (negative-edge Kelly fraction discarded) while the code returns the
cap `0.999999` because `|u - d| < 1e-12`. -/
theorem C7_counterexample :
    single_leg_kelly_fraction ⟨1/2, 1/2 + 1e-13, 1/2⟩ = 0.999999 ∧
    single_leg_kelly_claimed ⟨1/2, 1/2 + 1e-13, 1/2⟩ = 0 ∧
    single_leg_kelly_fraction ⟨1/2, 1/2 + 1e-13, 1/2⟩ ≠
      single_leg_kelly_claimed ⟨1/2, 1/2 + 1e-13, 1/2⟩ := by
  have h1 : single_leg_kelly_fraction ⟨1/2, 1/2 + 1e-13, 1/2⟩ = 0.999999 := by
    rw [single_leg_kelly_fraction]
    rw [if_pos (by rw [show ((1:ℝ)/2 + 1e-13 - 1/2) = 1e-13 by ring]; norm_num [abs_of_pos])]
    rw [if_pos (by norm_num), MAX_TOTAL_ALLOCATION]
  have h2 : single_leg_kelly_claimed ⟨1/2, 1/2 + 1e-13, 1/2⟩ = 0 := by
    rw [single_leg_kelly_claimed]
    rw [if_neg (by norm_num)]
    rw [if_neg (by norm_num)]
    rw [if_pos]
    apply div_nonpos_of_nonpos_of_nonneg
    · norm_num
    · norm_num
  exact ⟨h1, h2, by rw [h1, h2]; norm_num⟩

/-- Claim C7 (amended): the per-leg initial-guess fraction is the cap
`0.999999` when `|u - d| < 1e-12` and `u > 0`; `0` when `|u - d| < 1e-12`
and `u ≤ 0`; `0` when `|u| < 1e-12` or `|d| < 1e-12` (checked next);
otherwise `-(p·u + (1-p)·d)/(u·d)` clamped below by `0` (the formula is
automatically finite there since `u·d ≠ 0`). -/
theorem C7_single_leg_kelly_amended (leg : PortfolioLeg) :
    single_leg_kelly_fraction leg = kellySpecAmended leg := by
  rw [single_leg_kelly_fraction, kellySpecAmended]
  split
  · rfl
  · split
    · rfl
    · rcases le_or_lt (-(leg.win_prob * leg.win_return +
        (1 - leg.win_prob) * leg.loss_return) /
          (leg.win_return * leg.loss_return)) 0 with hle | hlt
      · rw [if_pos hle, max_eq_right hle]
      · rw [if_neg (not_le.2 hlt), max_eq_left (le_of_lt hlt)]

/-! ## Finite-objective preservation (claim C4) -/

lemma project_to_simplex_of_le (values : List ℝ) (cap : ℝ)
    (h : (values.map fun v => max v 0).sum ≤ cap) :
    project_to_simplex values cap = values.map fun v => max v 0 := by
  rw [project_to_simplex, if_pos h]

lemma lineSearch_some_isSome (states : List OutcomeState) (alloc grad : List ℝ)
    (obj : ℝ) :
    ∀ (k : ℕ) (ls : ℝ) (r : List ℝ × ℝ × ℝ),
      lineSearch states alloc grad obj ls k = some r →
      ((objective_and_gradient r.1 states).1).isSome := by
  intro k
  induction k with
  | zero =>
    intro ls r h
    simp [lineSearch] at h
  | succ k ih =>
    intro ls r h
    rw [lineSearch] at h
    split at h
    · rename_i nextObj heq
      split at h
      · rcases Option.some.inj h with rfl
        rw [heq]
        rfl
      · split at h
        · exact absurd h (by simp)
        · exact ih _ _ h
    · split at h
      · exact absurd h (by simp)
      · exact ih _ _ h

lemma solveLoopC_isSome (states : List OutcomeState) :
    ∀ (n : ℕ) (alloc : List ℝ) (step : ℝ) (iters : ℕ),
      ((objective_and_gradient alloc states).1).isSome →
      ((objective_and_gradient ((solveLoopC states n alloc step iters).1).1 states).1).isSome := by
  intro n
  induction n with
  | zero =>
    intro alloc step iters h
    exact h
  | succ n ih =>
    intro alloc step iters h
    rw [solveLoopC]
    split
    · exact h
    · rename_i obj grad heq1
      split
      · exact h
      · rename_i a' impr s' heq2
        split
        · exact lineSearch_some_isSome states alloc grad obj 24 step (a', impr, s') heq2
        · exact ih _ _ _ (lineSearch_some_isSome states alloc grad obj 24 step (a', impr, s') heq2)

lemma solveLoopC_none (states : List OutcomeState) (alloc : List ℝ) (step : ℝ)
    (iters : ℕ) (h : (objective_and_gradient alloc states).1 = none) :
    ∀ n : ℕ, 0 < n →
      solveLoopC states n alloc step iters = ((alloc, iters + 1, false), .nonFinite) := by
  intro n hn
  cases n with
  | zero => exact absurd hn (by norm_num)
  | succ n =>
    rw [solveLoopC]
    rcases hog : objective_and_gradient alloc states with ⟨o, g⟩
    rw [hog] at h
    simp only at h
    subst h
    rfl

/-- The four states of `enumerate_independent_states` on a two-leg list,
in mask order `00, 01, 10, 11` (bit `i` = leg `i` wins). -/
lemma enumerate_two (l1 l2 : PortfolioLeg) :
    enumerate_independent_states [l1, l2] =
      [⟨(1 - l1.win_prob) * ((1 - l2.win_prob) * 1), [l1.loss_return, l2.loss_return]⟩,
       ⟨l1.win_prob * ((1 - l2.win_prob) * 1), [l1.win_return, l2.loss_return]⟩,
       ⟨(1 - l1.win_prob) * (l2.win_prob * 1), [l1.loss_return, l2.win_return]⟩,
       ⟨l1.win_prob * (l2.win_prob * 1), [l1.win_return, l2.win_return]⟩] := by
  simp [enumerate_independent_states, stateFor, List.range_succ,
    Nat.testBit_succ, Nat.testBit_zero]

/-! ## Claim C4 -/

/-- Claim C4 (counterexample to the claim as stated): two legs with
`p = 19/20`, `u = 1`, `d = -2` (loss exceeding capital).  The projected
starting allocation is `[17/40, 17/40]`; in the joint-loss state the
wealth multiplier is `1 - 17/10 < 0`, so the *initial* objective is
already non-finite, the optimizer halts immediately at that allocation,
and the returned result's `expected_log_growth` is non-finite (`none`) —
the claim's "the allocation in the returned result always has a finite
expected-log-growth objective" fails. -/
theorem C4_counterexample :
    (calculate_portfolio_kelly [⟨19/20, 1, -2⟩, ⟨19/20, 1, -2⟩]).expected_log_growth
      = none := by
  have hA : single_leg_kelly_fraction ⟨19/20, 1, -2⟩ = 17/40 := by
    simp only [single_leg_kelly_fraction]
    rw [if_neg (by rw [abs_lt]; norm_num)]
    rw [if_neg (by rw [not_or, abs_lt, abs_lt]; norm_num)]
    rw [if_neg (by norm_num)]
    norm_num
  have hinit : initial_allocations_independent [⟨19/20, 1, -2⟩, ⟨19/20, 1, -2⟩] =
      [17/40, 17/40] := by
    rw [initial_allocations_independent]
    rw [List.map_cons, List.map_cons, List.map_nil, hA]
    rw [project_to_simplex_of_le _ _ (by norm_num [MAX_TOTAL_ALLOCATION])]
    norm_num
  have hobj : (objective_and_gradient [(17 : ℝ)/40, 17/40]
      (enumerate_independent_states [⟨19/20, 1, -2⟩, ⟨19/20, 1, -2⟩])).1 = none := by
    rw [enumerate_two, objective_and_gradient, objGradAux]
    rw [if_pos (by norm_num [state_wealth, dot])]
  rw [calculate_portfolio_kelly, hinit, solve_with_states]
  rw [if_neg (by rw [enumerate_two]; simp)]
  simp only [solveLoop]
  rw [solveLoopC_none _ _ _ _ hobj MAX_ITERATIONS (by norm_num [MAX_ITERATIONS])]
  exact hobj

/-- Claim C4 (amended): the optimizer never accepts a candidate with a
non-finite objective — whenever the evaluator reports a non-finite
objective at the current allocation the loop halts there immediately
(`nonFinite` cause, allocation unchanged); since every *accepted*
allocation has a finite objective, the returned result's
`expected_log_growth` is finite whenever the objective at the initial
(projected) allocation is finite; it can be non-finite only when the
initial allocation itself is infeasible, which is then returned
unchanged. -/
theorem C4_finite_objective_amended (leg_count : ℕ) (states : List OutcomeState)
    (alloc : List ℝ) :
    ((objective_and_gradient alloc states).1 = none →
      ∀ (step : ℝ) (iters n : ℕ), 0 < n →
        solveLoopC states n alloc step iters =
          ((alloc, iters + 1, false), StopCause.nonFinite)) ∧
    (((objective_and_gradient alloc states).1).isSome →
      ((solve_with_states leg_count states alloc).expected_log_growth).isSome) := by
  constructor
  · intro h step iters n hn
    exact solveLoopC_none states alloc step iters h n hn
  · intro h
    rw [solve_with_states]
    split
    · rfl
    · exact solveLoopC_isSome states MAX_ITERATIONS alloc 0.25 0 h

/-- Witness for C4: the non-finite branch at `alloc = [1]`,
`states = [(prob 1, returns [-2])]` (wealth `-1 ≤ 0`), and the finite
branch at `alloc = [0]`, `states = [(prob 1, returns [1])]`. -/
theorem C4_witness :
    (objective_and_gradient [(1 : ℝ)] [⟨1, [-2]⟩]).1 = none ∧
    solveLoopC [⟨1, [-2]⟩] 1 [(1 : ℝ)] 0.25 0 = (([(1 : ℝ)], 1, false), StopCause.nonFinite) ∧
    ((objective_and_gradient [(0 : ℝ)] [⟨1, [1]⟩]).1).isSome ∧
    ((solve_with_states 1 [⟨1, [1]⟩] [(0 : ℝ)]).expected_log_growth).isSome := by
  have h1 : (objective_and_gradient [(1 : ℝ)] [⟨1, [-2]⟩]).1 = none := by
    rw [objective_and_gradient, objGradAux]
    rw [if_pos (by norm_num [state_wealth, dot])]
  have h3 : ((objective_and_gradient [(0 : ℝ)] [⟨1, [1]⟩]).1).isSome := by
    rw [objective_and_gradient, objGradAux]
    rw [if_neg (by norm_num [state_wealth, dot])]
    rfl
  exact ⟨h1,
    (C4_finite_objective_amended 1 [⟨1, [-2]⟩] [(1 : ℝ)]).1 h1 0.25 0 1 (by norm_num),
    h3,
    (C4_finite_objective_amended 1 [⟨1, [1]⟩] [(0 : ℝ)]).2 h3⟩

/-! ## Wealth lower bound (claim C3) -/

lemma neg_sum_le_dot :
    ∀ (alloc returns : List ℝ), (∀ a ∈ alloc, 0 ≤ a) → (∀ r ∈ returns, -1 ≤ r) →
      -alloc.sum ≤ dot alloc returns := by
  intro alloc
  induction alloc with
  | nil =>
    intro returns _ _
    simp [dot]
  | cons a as ih =>
    intro returns ha hr
    cases returns with
    | nil =>
      have h0 : (0 : ℝ) ≤ (a :: as).sum := List.sum_nonneg ha
      have hd : dot (a :: as) [] = 0 := by simp [dot]
      rw [hd]
      linarith
    | cons r rs =>
      have h1 : -as.sum ≤ dot as rs :=
        ih rs (fun x hx => ha x (List.mem_cons_of_mem a hx))
          (fun x hx => hr x (List.mem_cons_of_mem r hx))
      have ha0 : 0 ≤ a := ha a (by simp)
      have hr0 : -1 ≤ r := hr r (by simp)
      have h2 : -a ≤ a * r := by nlinarith
      have hd : dot (a :: as) (r :: rs) = a * r + dot as rs := by
        simp [dot]
      rw [hd, List.sum_cons]
      linarith

lemma state_wealth_pos (alloc returns : List ℝ) (h : GoodAlloc alloc)
    (hr : ∀ r ∈ returns, -1 ≤ r) : 0 < state_wealth alloc returns := by
  have h1 : -alloc.sum ≤ dot alloc returns := neg_sum_le_dot alloc returns h.1 hr
  have h2 : alloc.sum ≤ MAX_TOTAL_ALLOCATION := h.2
  rw [state_wealth]
  rw [MAX_TOTAL_ALLOCATION] at h2
  norm_num at h2
  linarith

lemma worst_case_of_nonneg (alloc : List ℝ) (states : List OutcomeState)
    (h : GoodAlloc alloc) (hr : ∀ s ∈ states, ∀ r ∈ s.returns, -1 ≤ r) :
    0 ≤ worst_case_of alloc states := by
  rw [worst_case_of]
  split
  · exact le_refl 0
  · rename_i w ws hws
    have hmem := foldl_min_mem ws w
    rw [← hws] at hmem
    rcases List.mem_map.1 hmem with ⟨s, hs, hsw⟩
    have hsstates : s ∈ states := List.mem_of_mem_filter hs
    rw [← hsw]
    exact le_of_lt (state_wealth_pos alloc s.returns h (hr s hsstates))

lemma solve_with_states_worst_nonneg (leg_count : ℕ) (states : List OutcomeState)
    (alloc : List ℝ) (h : GoodAlloc alloc)
    (hr : ∀ s ∈ states, ∀ r ∈ s.returns, -1 ≤ r) :
    0 ≤ (solve_with_states leg_count states alloc).worst_case_multiplier := by
  rw [solve_with_states]
  split
  · norm_num
  · exact worst_case_of_nonneg _ states (solveLoopC_good states MAX_ITERATIONS alloc 0.25 0 h) hr

lemma enumerate_returns_bounded (legs : List PortfolioLeg)
    (hlegs : ∀ leg ∈ legs, -1 ≤ leg.win_return ∧ -1 ≤ leg.loss_return) :
    ∀ s ∈ enumerate_independent_states legs, ∀ r ∈ s.returns, -1 ≤ r := by
  intro s hs r hrs
  rcases List.mem_map.1 hs with ⟨mask, _, rfl⟩
  rcases List.mem_map.1 hrs with ⟨i, hi, rfl⟩
  have hilen : i < legs.length := List.mem_range.1 hi
  have hmem : legs.getD i default ∈ legs := by
    rw [List.getD_eq_getElem legs default hilen]
    exact List.getElem_mem hilen
  rcases hlegs _ hmem with ⟨hw, hl⟩
  split
  · exact hw
  · exact hl

/-! ## Claim C3 -/

/-- Claim C3 (counterexample to the claim as stated): two legs with
`p = 9/10`, `u = 1`, `d = -2` form a valid input (finite returns, win
probability in `[0,1]`), but the returned `worst_case_multiplier` is
`-2/5 < 0`: the projected initial allocation `[7/20, 7/20]` is already
infeasible in the joint-loss state (wealth `1 - 7/5 < 0`), the optimizer
halts there, and the joint-loss state (probability `1/100 > 1e-15`)
contributes a negative wealth multiplier to the reported minimum. -/
theorem C3_counterexample :
    (calculate_portfolio_kelly [⟨9/10, 1, -2⟩, ⟨9/10, 1, -2⟩]).worst_case_multiplier
      < 0 := by
  have hB : single_leg_kelly_fraction ⟨9/10, 1, -2⟩ = 7/20 := by
    simp only [single_leg_kelly_fraction]
    rw [if_neg (by rw [abs_lt]; norm_num)]
    rw [if_neg (by rw [not_or, abs_lt, abs_lt]; norm_num)]
    rw [if_neg (by norm_num)]
    norm_num
  have hinit : initial_allocations_independent [⟨9/10, 1, -2⟩, ⟨9/10, 1, -2⟩] =
      [7/20, 7/20] := by
    rw [initial_allocations_independent]
    rw [List.map_cons, List.map_cons, List.map_nil, hB]
    rw [project_to_simplex_of_le _ _ (by norm_num [MAX_TOTAL_ALLOCATION])]
    norm_num
  have henum : enumerate_independent_states [⟨9/10, 1, -2⟩, ⟨9/10, 1, -2⟩] =
      [⟨1/100, [-2, -2]⟩, ⟨9/100, [1, -2]⟩, ⟨9/100, [-2, 1]⟩, ⟨81/100, [1, 1]⟩] := by
    rw [enumerate_two]
    norm_num
  have hobj : (objective_and_gradient [(7 : ℝ)/20, 7/20]
      ([⟨1/100, [-2, -2]⟩, ⟨9/100, [1, -2]⟩, ⟨9/100, [-2, 1]⟩,
        ⟨81/100, [1, 1]⟩] : List OutcomeState)).1 = none := by
    rw [objective_and_gradient, objGradAux]
    rw [if_pos (by norm_num [state_wealth, dot])]
  have hws : ((([⟨1/100, [-2, -2]⟩, ⟨9/100, [1, -2]⟩, ⟨9/100, [-2, 1]⟩,
        ⟨81/100, [1, 1]⟩] : List OutcomeState).filter
          fun s => STATE_PROB_EPS < s.prob).map
        fun s => state_wealth [(7 : ℝ)/20, 7/20] s.returns) =
      [-2/5, 13/20, 13/20, 17/10] := by
    simp only [List.filter_cons, List.filter_nil, decide_eq_true_eq]
    rw [if_pos (by norm_num [STATE_PROB_EPS]), if_pos (by norm_num [STATE_PROB_EPS]),
      if_pos (by norm_num [STATE_PROB_EPS]), if_pos (by norm_num [STATE_PROB_EPS])]
    norm_num [state_wealth, dot]
  have hworst : worst_case_of [(7 : ℝ)/20, 7/20]
      ([⟨1/100, [-2, -2]⟩, ⟨9/100, [1, -2]⟩, ⟨9/100, [-2, 1]⟩,
        ⟨81/100, [1, 1]⟩] : List OutcomeState) = -2/5 := by
    rw [worst_case_of, hws]
    norm_num [List.foldl, min_def]
  have hloop : solveLoop ([⟨1/100, [-2, -2]⟩, ⟨9/100, [1, -2]⟩, ⟨9/100, [-2, 1]⟩,
        ⟨81/100, [1, 1]⟩] : List OutcomeState) MAX_ITERATIONS [(7 : ℝ)/20, 7/20] 0.25 0 =
      ([(7 : ℝ)/20, 7/20], 1, false) := by
    rw [solveLoop, solveLoopC_none _ _ _ _ hobj MAX_ITERATIONS (by norm_num [MAX_ITERATIONS])]
  rw [calculate_portfolio_kelly, hinit, henum, solve_with_states]
  rw [if_neg (by simp)]
  simp only [solveLoop] at hloop
  simp only [solveLoop, hloop, hworst]
  norm_num

/-- Claim C3 (amended: restricted to legs/scenarios whose returns are all
`≥ -1`, i.e. no leg can lose more than the committed capital — the
regime the spec's own §7 describes as the normal one):
`worst_case_multiplier ≥ 0` for both entry points.  Without that
restriction the claim is false (`C3_counterexample`). -/
theorem C3_worst_case_nonneg_amended :
    (∀ legs : List PortfolioLeg,
      (∀ leg ∈ legs, -1 ≤ leg.win_return ∧ -1 ≤ leg.loss_return) →
      0 ≤ (calculate_portfolio_kelly legs).worst_case_multiplier) ∧
    (∀ (leg_count : ℕ) (scenarios : List PortfolioScenario),
      (∀ sc ∈ scenarios, ∀ r ∈ sc.returns, -1 ≤ r) →
      0 ≤ (calculate_portfolio_kelly_correlated leg_count scenarios).worst_case_multiplier) := by
  constructor
  · intro legs hlegs
    rw [calculate_portfolio_kelly]
    exact solve_with_states_worst_nonneg _ _ _ (goodAlloc_project _)
      (enumerate_returns_bounded legs hlegs)
  · intro leg_count scenarios hsc
    rw [calculate_portfolio_kelly_correlated]
    apply solve_with_states_worst_nonneg _ _ _ (goodAlloc_project _)
    intro s hs r hr
    rcases List.mem_map.1 hs with ⟨sc, hscmem, rfl⟩
    exact hsc sc hscmem r hr

/-- Witness for C3: a standard bet leg `(p = 1/2, u = 1, d = -1)` and a
one-scenario correlated input, both with returns `≥ -1`. -/
theorem C3_witness :
    0 ≤ (calculate_portfolio_kelly [⟨1/2, 1, -1⟩]).worst_case_multiplier ∧
    0 ≤ (calculate_portfolio_kelly_correlated 1 [⟨1, [1/2]⟩]).worst_case_multiplier := by
  constructor
  · apply C3_worst_case_nonneg_amended.1 [⟨1/2, 1, -1⟩]
    intro leg hleg
    rcases List.mem_cons.1 hleg with rfl | hleg
    · norm_num
    · simp at hleg
  · apply C3_worst_case_nonneg_amended.2 1 [⟨1, [1/2]⟩]
    intro sc hsc r hr
    rcases List.mem_cons.1 hsc with rfl | hsc
    · rcases List.mem_cons.1 hr with rfl | hr
      · norm_num
      · simp at hr
    · simp at hsc

/-! ## Claim C10 -/

lemma solveLoopC_converged_iff (states : List OutcomeState) :
    ∀ (n : ℕ) (alloc : List ℝ) (step : ℝ) (iters : ℕ),
      ((solveLoopC states n alloc step iters).1).2.2 = true ↔
        ((solveLoopC states n alloc step iters).2 = StopCause.noStep ∨
         (solveLoopC states n alloc step iters).2 = StopCause.smallStep) := by
  intro n
  induction n with
  | zero =>
    intro alloc step iters
    simp [solveLoopC]
  | succ n ih =>
    intro alloc step iters
    rw [solveLoopC]
    split
    · simp
    · split
      · simp
      · split
        · simp
        · exact ih _ _ _

/-- Claim C10: for non-empty input, the `converged` flag is `true`
exactly when the loop stopped because an iteration accepted no improving
step (`noStep`) or because the accepted improvement was below `1e-10`
(`smallStep`); it is `false` both when the 800-iteration budget ran out
(`fuelExhausted`, which by construction means every completed iteration
still improved by at least `1e-10`) and when the loop halted on a
non-finite objective (`nonFinite`). -/
theorem C10_converged_iff (leg_count : ℕ) (states : List OutcomeState)
    (alloc : List ℝ) (h : ¬ (leg_count = 0 ∨ states = [])) :
    ((solve_with_states leg_count states alloc).converged = true ↔
      ((solveLoopC states MAX_ITERATIONS alloc 0.25 0).2 = StopCause.noStep ∨
       (solveLoopC states MAX_ITERATIONS alloc 0.25 0).2 = StopCause.smallStep)) ∧
    (((solveLoopC states MAX_ITERATIONS alloc 0.25 0).2 = StopCause.fuelExhausted ∨
      (solveLoopC states MAX_ITERATIONS alloc 0.25 0).2 = StopCause.nonFinite) →
      (solve_with_states leg_count states alloc).converged = false) := by
  push_neg at h
  have hcond : ¬ (leg_count = 0 ∨ states.isEmpty = true) := by
    push_neg
    exact ⟨h.1, by simp [h.2]⟩
  have hfield : (solve_with_states leg_count states alloc).converged =
      ((solveLoopC states MAX_ITERATIONS alloc 0.25 0).1).2.2 := by
    rw [solve_with_states, if_neg hcond]
    rfl
  rw [hfield]
  refine ⟨solveLoopC_converged_iff states MAX_ITERATIONS alloc 0.25 0, ?_⟩
  intro hc
  rw [← Bool.not_eq_true]
  rw [solveLoopC_converged_iff states MAX_ITERATIONS alloc 0.25 0]
  rcases hc with hc | hc <;> rw [hc] <;> simp

/-- Witness for C10: one state of probability `1` and return `0`; the
run stops in the first iteration with no accepted step. -/
theorem C10_witness :
    ¬ ((1 : ℕ) = 0 ∨ ([(⟨1, [0]⟩ : OutcomeState)] = [])) ∧
    ((solve_with_states 1 [⟨1, [0]⟩] [(0 : ℝ)]).converged = true ↔
      ((solveLoopC [⟨1, [0]⟩] MAX_ITERATIONS [(0 : ℝ)] 0.25 0).2 = StopCause.noStep ∨
       (solveLoopC [⟨1, [0]⟩] MAX_ITERATIONS [(0 : ℝ)] 0.25 0).2 = StopCause.smallStep)) :=
  ⟨by simp, (C10_converged_iff 1 [⟨1, [0]⟩] [(0 : ℝ)] (by simp)).1⟩

/-! ## Symmetry machinery (claim C8): index and bitmask transpositions -/

lemma swapIdx_involutive (i j k : ℕ) : swapIdx i j (swapIdx i j k) = k := by
  unfold swapIdx
  split_ifs <;> omega

lemma swapIdx_lt (i j k n : ℕ) (hi : i < n) (hj : j < n) (hk : k < n) :
    swapIdx i j k < n := by
  unfold swapIdx
  split_ifs <;> omega

lemma swapIdx_left (i j : ℕ) : swapIdx i j i = j := by
  unfold swapIdx
  split_ifs <;> omega

lemma swapBits_testBit (i j m k : ℕ) :
    (swapBits i j m).testBit k = m.testBit (swapIdx i j k) := by
  unfold swapBits swapIdx
  by_cases heq : m.testBit i = m.testBit j
  · rw [if_pos heq]
    split_ifs with h1 h2
    · rw [h1, heq]
    · rw [h2, heq]
    · rfl
  · rw [if_neg heq]
    have hij : i ≠ j := by
      intro h
      exact heq (by rw [h])
    split_ifs with h1 h2
    · rw [h1, Nat.testBit_xor, Nat.testBit_xor, Nat.testBit_two_pow, Nat.testBit_two_pow]
      cases hbi : m.testBit i <;> cases hbj : m.testBit j <;> simp_all [Ne.symm hij]
    · rw [h2, Nat.testBit_xor, Nat.testBit_xor, Nat.testBit_two_pow, Nat.testBit_two_pow]
      cases hbi : m.testBit i <;> cases hbj : m.testBit j <;> simp_all [hij]
    · rw [Nat.testBit_xor, Nat.testBit_xor, Nat.testBit_two_pow, Nat.testBit_two_pow]
      have hki : ¬ (i = k) := fun h => h1 h.symm
      have hkj : ¬ (j = k) := fun h => h2 h.symm
      rw [decide_eq_false hki, decide_eq_false hkj]
      simp

lemma swapBits_involutive (i j m : ℕ) : swapBits i j (swapBits i j m) = m :=
  Nat.eq_of_testBit_eq fun k => by
    rw [swapBits_testBit, swapBits_testBit, swapIdx_involutive]

lemma swapBits_lt (i j n m : ℕ) (hi : i < n) (hj : j < n) (hm : m < 2 ^ n) :
    swapBits i j m < 2 ^ n := by
  unfold swapBits
  split
  · exact hm
  · exact Nat.xor_lt_two_pow hm
      (Nat.xor_lt_two_pow (Nat.pow_lt_pow_right (by norm_num) hi)
        (Nat.pow_lt_pow_right (by norm_num) hj))

/-! ## Symmetry machinery: list access and reindexed sums -/

lemma getD_replicate_lt (n k : ℕ) (x : ℝ) (h : k < n) :
    (List.replicate n x).getD k 0 = x := by
  rw [List.getD_eq_getElem _ _ (by simpa using h)]
  simp

lemma getD_map (v : List ℝ) (g : ℝ → ℝ) (k : ℕ) (h : k < v.length) :
    (v.map g).getD k 0 = g (v.getD k 0) := by
  rw [List.getD_eq_getElem _ _ (by simpa using h), List.getD_eq_getElem _ _ h]
  simp

lemma getD_zipWith (v w : List ℝ) (f : ℝ → ℝ → ℝ) (k : ℕ)
    (hv : k < v.length) (hw : k < w.length) :
    (List.zipWith f v w).getD k 0 = f (v.getD k 0) (w.getD k 0) := by
  rw [List.getD_eq_getElem _ _ (by rw [List.length_zipWith]; omega),
    List.getD_eq_getElem _ _ hv, List.getD_eq_getElem _ _ hw]
  simp

lemma getD_map_range (N k : ℕ) (F : ℕ → ℝ) (hk : k < N) :
    ((List.range N).map F).getD k 0 = F k := by
  rw [List.getD_eq_getElem _ _ (by simpa using hk)]
  simp

lemma sum_range_reindex (N : ℕ) (F : ℕ → ℝ) (σ : ℕ → ℕ)
    (hmem : ∀ m, m < N → σ m < N) (hinv : ∀ m, σ (σ m) = m) :
    ∑ m in Finset.range N, F (σ m) = ∑ m in Finset.range N, F m := by
  refine Finset.sum_nbij' σ σ ?_ ?_ ?_ ?_ ?_
  · intro a ha
    exact Finset.mem_range.2 (hmem a (Finset.mem_range.1 ha))
  · intro a ha
    exact Finset.mem_range.2 (hmem a (Finset.mem_range.1 ha))
  · intro a _
    exact hinv a
  · intro a _
    exact hinv a
  · intro a _
    rfl

lemma prod_range_reindex (N : ℕ) (F : ℕ → ℝ) (σ : ℕ → ℕ)
    (hmem : ∀ m, m < N → σ m < N) (hinv : ∀ m, σ (σ m) = m) :
    ∏ m in Finset.range N, F (σ m) = ∏ m in Finset.range N, F m := by
  refine Finset.prod_nbij' σ σ ?_ ?_ ?_ ?_ ?_
  · intro a ha
    exact Finset.mem_range.2 (hmem a (Finset.mem_range.1 ha))
  · intro a ha
    exact Finset.mem_range.2 (hmem a (Finset.mem_range.1 ha))
  · intro a _
    exact hinv a
  · intro a _
    exact hinv a
  · intro a _
    rfl

/-! ## Symmetry machinery: transporting states along the bit swap -/

lemma getD_swapIdx (legs : List PortfolioLeg) (i j : ℕ)
    (hleg : legs.getD i default = legs.getD j default) (k : ℕ) :
    legs.getD (swapIdx i j k) default = legs.getD k default := by
  unfold swapIdx
  split_ifs with h1 h2
  · rw [h1, hleg]
  · rw [h2, hleg]
  · rfl

lemma stateFor_returns_length (legs : List PortfolioLeg) (m : ℕ) :
    (stateFor legs m).returns.length = legs.length := by
  simp [stateFor]

lemma stateFor_prob_swap (legs : List PortfolioLeg) (i j : ℕ)
    (hi : i < legs.length) (hj : j < legs.length)
    (hleg : legs.getD i default = legs.getD j default) (m : ℕ) :
    (stateFor legs (swapBits i j m)).prob = (stateFor legs m).prob := by
  simp only [stateFor]
  show (∏ k in Finset.range legs.length, _) = ∏ k in Finset.range legs.length, _
  rw [Finset.prod_congr rfl (f := fun k =>
      if (swapBits i j m).testBit k then (legs.getD k default).win_prob
      else 1 - (legs.getD k default).win_prob)
    (g := fun k =>
      if m.testBit (swapIdx i j k) then (legs.getD (swapIdx i j k) default).win_prob
      else 1 - (legs.getD (swapIdx i j k) default).win_prob)
    (fun k _ => by simp only [swapBits_testBit, getD_swapIdx legs i j hleg])]
  exact prod_range_reindex legs.length
    (fun k => if m.testBit k then (legs.getD k default).win_prob
      else 1 - (legs.getD k default).win_prob)
    (swapIdx i j) (fun k hk => swapIdx_lt i j k _ hi hj hk) (swapIdx_involutive i j)

lemma stateFor_returns_swap (legs : List PortfolioLeg) (i j : ℕ)
    (hi : i < legs.length) (hj : j < legs.length)
    (hleg : legs.getD i default = legs.getD j default) (m k : ℕ)
    (hk : k < legs.length) :
    (stateFor legs (swapBits i j m)).returns.getD k 0 =
      (stateFor legs m).returns.getD (swapIdx i j k) 0 := by
  simp only [stateFor]
  rw [getD_map_range _ _ _ hk, getD_map_range _ _ _ (swapIdx_lt i j k _ hi hj hk)]
  rw [swapBits_testBit, getD_swapIdx legs i j hleg]

lemma dot_eq_range_sum :
    ∀ (f r : List ℝ), f.length = r.length →
      dot f r = ∑ k in Finset.range f.length, f.getD k 0 * r.getD k 0 := by
  intro f
  induction f with
  | nil =>
    intro r h
    simp [dot]
  | cons a f' ih =>
    intro r h
    cases r with
    | nil => simp at h
    | cons b r' =>
      have hlen : f'.length = r'.length := by simpa using h
      have hd : dot (a :: f') (b :: r') = a * b + dot f' r' := by
        simp [dot]
      rw [hd, ih r' hlen]
      rw [List.length_cons, Finset.sum_range_succ']
      simp only [List.getD_cons_succ, List.getD_cons_zero]
      ring

lemma dot_stateFor_swap (legs : List PortfolioLeg) (i j : ℕ)
    (hi : i < legs.length) (hj : j < legs.length)
    (hleg : legs.getD i default = legs.getD j default)
    (f : List ℝ) (hf : f.length = legs.length)
    (hsym : f.getD i 0 = f.getD j 0) (m : ℕ) :
    dot f (stateFor legs (swapBits i j m)).returns =
      dot f (stateFor legs m).returns := by
  have hfd : ∀ k, f.getD (swapIdx i j k) 0 = f.getD k 0 := by
    intro k
    unfold swapIdx
    split_ifs with h1 h2
    · rw [h1, hsym]
    · rw [h2, hsym]
    · rfl
  rw [dot_eq_range_sum f _ (by rw [stateFor_returns_length, hf]),
    dot_eq_range_sum f _ (by rw [stateFor_returns_length, hf]), hf]
  rw [Finset.sum_congr rfl (fun k hk => by
    rw [stateFor_returns_swap legs i j hi hj hleg m k (Finset.mem_range.1 hk),
      ← hfd k] :
    ∀ k ∈ Finset.range legs.length,
      f.getD k 0 * (stateFor legs (swapBits i j m)).returns.getD k 0 =
      f.getD (swapIdx i j k) 0 * (stateFor legs m).returns.getD (swapIdx i j k) 0)]
  exact sum_range_reindex legs.length
    (fun k => f.getD k 0 * (stateFor legs m).returns.getD k 0)
    (swapIdx i j) (fun k hk => swapIdx_lt i j k _ hi hj hk) (swapIdx_involutive i j)

lemma gradTermSpec_enumerate_swap (legs : List PortfolioLeg) (i j : ℕ)
    (hi : i < legs.length) (hj : j < legs.length)
    (hleg : legs.getD i default = legs.getD j default)
    (f : List ℝ) (hf : f.length = legs.length)
    (hsym : f.getD i 0 = f.getD j 0) :
    gradTermSpec f (enumerate_independent_states legs) i =
      gradTermSpec f (enumerate_independent_states legs) j := by
  have hbridge : ∀ (T : OutcomeState → ℝ),
      (((List.range (2 ^ legs.length)).map (stateFor legs)).map T).sum =
        ∑ m in Finset.range (2 ^ legs.length), T (stateFor legs m) := by
    intro T
    rw [List.map_map]
    rfl
  rw [gradTermSpec, gradTermSpec, enumerate_independent_states, hbridge, hbridge]
  rw [← sum_range_reindex (2 ^ legs.length)
    (fun m => (stateFor legs m).prob * (stateFor legs m).returns.getD i 0 /
      state_wealth f (stateFor legs m).returns)
    (swapBits i j) (fun m hm => swapBits_lt i j _ m hi hj hm)
    (swapBits_involutive i j)]
  refine Finset.sum_congr rfl ?_
  intro m _
  show (stateFor legs (swapBits i j m)).prob *
      (stateFor legs (swapBits i j m)).returns.getD i 0 /
      state_wealth f (stateFor legs (swapBits i j m)).returns =
    (stateFor legs m).prob * (stateFor legs m).returns.getD j 0 /
      state_wealth f (stateFor legs m).returns
  rw [stateFor_prob_swap legs i j hi hj hleg m,
    stateFor_returns_swap legs i j hi hj hleg m i hi, swapIdx_left,
    state_wealth, state_wealth, dot_stateFor_swap legs i j hi hj hleg f hf hsym m]

/-! ## Symmetry machinery: the gradient at a symmetric allocation -/

lemma objGradAux_isSome_wealth_pos (f : List ℝ) :
    ∀ (states : List OutcomeState) (o : ℝ) (g : List ℝ),
      ((objGradAux f states o g).1).isSome →
      ∀ s ∈ states, 0 < state_wealth f s.returns := by
  intro states
  induction states with
  | nil =>
    intro o g _ s hs
    simp at hs
  | cons s0 rest ih =>
    intro o g h s hs
    rw [objGradAux] at h
    split at h
    · simp at h
    · rename_i hw
      rcases List.mem_cons.1 hs with rfl | hs
      · exact lt_of_not_le hw
      · exact ih _ _ h s hs

lemma objective_and_gradient_snd_length (f : List ℝ) (states : List OutcomeState) :
    ((objective_and_gradient f states).2).length = f.length := by
  rw [objective_and_gradient, objGradAux_length]
  simp

lemma gradient_symmetric (legs : List PortfolioLeg) (i j : ℕ)
    (hi : i < legs.length) (hj : j < legs.length)
    (hleg : legs.getD i default = legs.getD j default)
    (f : List ℝ) (hf : f.length = legs.length) (hsym : f.getD i 0 = f.getD j 0)
    (hsome : ((objective_and_gradient f (enumerate_independent_states legs)).1).isSome) :
    ((objective_and_gradient f (enumerate_independent_states legs)).2).getD i 0 =
      ((objective_and_gradient f (enumerate_independent_states legs)).2).getD j 0 := by
  have hpos : ∀ s ∈ enumerate_independent_states legs, 0 < state_wealth f s.returns :=
    objGradAux_isSome_wealth_pos f _ 0 _ hsome
  have hif : i < f.length := by rw [hf]; exact hi
  have hjf : j < f.length := by rw [hf]; exact hj
  have hgi := objGradAux_pos_snd f (enumerate_independent_states legs) 0
    (List.replicate f.length 0) i (by simpa using hif) hpos
  have hgj := objGradAux_pos_snd f (enumerate_independent_states legs) 0
    (List.replicate f.length 0) j (by simpa using hjf) hpos
  rw [objective_and_gradient, hgi, hgj, getD_replicate_lt _ _ _ hif,
    getD_replicate_lt _ _ _ hjf, zero_add, zero_add]
  exact gradTermSpec_enumerate_swap legs i j hi hj hleg f hf hsym

/-! ## Symmetry machinery: preservation through the optimizer loop -/

lemma symAlloc_project (n i j : ℕ) (hi : i < n) (hj : j < n) (v : List ℝ) (cap : ℝ)
    (h : SymAlloc n i j v) : SymAlloc n i j (project_to_simplex v cap) := by
  obtain ⟨g, hg⟩ := project_to_simplex_pointwise v cap
  constructor
  · rw [project_to_simplex_length, h.1]
  · rw [hg, getD_map v g i (by rw [h.1]; exact hi),
      getD_map v g j (by rw [h.1]; exact hj), h.2]

lemma symAlloc_zipWith (n i j : ℕ) (hi : i < n) (hj : j < n) (v w : List ℝ) (c : ℝ)
    (hv : SymAlloc n i j v) (hw : SymAlloc n i j w) :
    SymAlloc n i j (List.zipWith (fun a b => a + c * b) v w) := by
  constructor
  · rw [List.length_zipWith, hv.1, hw.1, min_self]
  · rw [getD_zipWith v w _ i (by rw [hv.1]; exact hi) (by rw [hw.1]; exact hi),
      getD_zipWith v w _ j (by rw [hv.1]; exact hj) (by rw [hw.1]; exact hj),
      hv.2, hw.2]

lemma lineSearch_symAlloc (states : List OutcomeState) (n i j : ℕ)
    (hi : i < n) (hj : j < n) (alloc grad : List ℝ) (obj : ℝ)
    (ha : SymAlloc n i j alloc) (hg : SymAlloc n i j grad) :
    ∀ (k : ℕ) (ls : ℝ) (r : List ℝ × ℝ × ℝ),
      lineSearch states alloc grad obj ls k = some r → SymAlloc n i j r.1 := by
  intro k
  induction k with
  | zero =>
    intro ls r h
    simp [lineSearch] at h
  | succ k ih =>
    intro ls r h
    rw [lineSearch] at h
    split at h
    · split at h
      · rcases Option.some.inj h with rfl
        exact symAlloc_project n i j hi hj _ _
          (symAlloc_zipWith n i j hi hj alloc grad ls ha hg)
      · split at h
        · exact absurd h (by simp)
        · exact ih _ _ h
    · split at h
      · exact absurd h (by simp)
      · exact ih _ _ h

lemma solveLoopC_symAlloc (legs : List PortfolioLeg) (i j : ℕ)
    (hi : i < legs.length) (hj : j < legs.length)
    (hleg : legs.getD i default = legs.getD j default) :
    ∀ (n : ℕ) (alloc : List ℝ) (step : ℝ) (iters : ℕ),
      SymAlloc legs.length i j alloc →
      SymAlloc legs.length i j
        ((solveLoopC (enumerate_independent_states legs) n alloc step iters).1).1 := by
  intro n
  induction n with
  | zero =>
    intro alloc step iters h
    exact h
  | succ n ih =>
    intro alloc step iters h
    rw [solveLoopC]
    split
    · exact h
    · rename_i obj grad heq1
      have hsome : ((objective_and_gradient alloc
          (enumerate_independent_states legs)).1).isSome := by
        rw [heq1]
        rfl
      have hgsym := gradient_symmetric legs i j hi hj hleg alloc h.1 h.2 hsome
      rw [heq1] at hgsym
      have hglen : grad.length = legs.length := by
        have h3 := objective_and_gradient_snd_length alloc
          (enumerate_independent_states legs)
        rw [heq1] at h3
        exact h3.trans h.1
      have hgS : SymAlloc legs.length i j grad := ⟨hglen, hgsym⟩
      split
      · exact h
      · rename_i a' impr s' heq2
        have ha' := lineSearch_symAlloc _ legs.length i j hi hj alloc grad obj h hgS
          24 step (a', impr, s') heq2
        split
        · exact ha'
        · exact ih _ _ _ ha'

lemma initial_independent_symAlloc (legs : List PortfolioLeg) (i j : ℕ)
    (hi : i < legs.length) (hj : j < legs.length)
    (hleg : legs.getD i default = legs.getD j default) :
    SymAlloc legs.length i j (initial_allocations_independent legs) := by
  rw [initial_allocations_independent]
  apply symAlloc_project _ _ _ hi hj
  constructor
  · simp
  · rw [List.getD_eq_getElem _ _ (by simpa using hi),
      List.getD_eq_getElem _ _ (by simpa using hj)]
    simp only [List.getElem_map]
    congr 1
    rw [← List.getD_eq_getElem legs default hi, ← List.getD_eq_getElem legs default hj,
      hleg]

/-! ## Claim C8 -/

/-- Claim C8: for every independent-mode input in which two legs `i`, `j`
have identical win probability, win return, and loss return,
`calculate_portfolio_kelly` returns equal allocations for those two legs.
Proved as a single-run invariant: the per-leg Kelly starting vector is
symmetric in `i` and `j`, the simplex projection is pointwise (a common
shift), the gradient at any symmetric feasible allocation is symmetric
(by reindexing the `2^n` outcome states along the bitmask transposition
of bits `i` and `j`), and every accepted step preserves the symmetry. -/
theorem C8_symmetric_legs_equal_allocations (legs : List PortfolioLeg) (i j : ℕ)
    (hi : i < legs.length) (hj : j < legs.length)
    (hleg : legs.getD i default = legs.getD j default) :
    (calculate_portfolio_kelly legs).allocations.getD i 0 =
      (calculate_portfolio_kelly legs).allocations.getD j 0 := by
  have hcond : ¬ (legs.length = 0 ∨
      (enumerate_independent_states legs).isEmpty = true) := by
    push_neg
    refine ⟨by omega, ?_⟩
    have hlen : (enumerate_independent_states legs).length = 2 ^ legs.length := by
      simp [enumerate_independent_states]
    have hpow : (0 : ℕ) < 2 ^ legs.length := by positivity
    intro hemp
    rw [List.isEmpty_iff] at hemp
    rw [hemp] at hlen
    simp at hlen
    omega
  rw [calculate_portfolio_kelly, solve_with_states, if_neg hcond]
  show ((solveLoopC (enumerate_independent_states legs) MAX_ITERATIONS
      (initial_allocations_independent legs) 0.25 0).1).1.getD i 0 =
    ((solveLoopC (enumerate_independent_states legs) MAX_ITERATIONS
      (initial_allocations_independent legs) 0.25 0).1).1.getD j 0
  exact (solveLoopC_symAlloc legs i j hi hj hleg MAX_ITERATIONS _ 0.25 0
    (initial_independent_symAlloc legs i j hi hj hleg)).2

/-- Witness for C8: two identical legs `p = 3/5, u = 1, d = -1`. -/
theorem C8_witness :
    (calculate_portfolio_kelly [⟨3/5, 1, -1⟩, ⟨3/5, 1, -1⟩]).allocations.getD 0 0 =
      (calculate_portfolio_kelly [⟨3/5, 1, -1⟩, ⟨3/5, 1, -1⟩]).allocations.getD 1 0 :=
  C8_symmetric_legs_equal_allocations [⟨3/5, 1, -1⟩, ⟨3/5, 1, -1⟩] 0 1
    (by norm_num) (by norm_num) rfl

end PortfolioKelly

end
